import Mathlib

/-!
Verification of the runtime behavior of the deserialization code emitted by
`serde_codegen/src/de.rs`.  The generator is a compile-time code synthesizer:
given a type's shape (unit / newtype / tuple / named-field struct / enum) and
its container policy it emits a fixed deserialization procedure.  We embed the
emitted procedures shallowly: each generated code path becomes a Lean function
over an explicit cursor state, and the schema data the generator consumes
(field wire names, missing-value policy, `deny_unknown_fields`) becomes
ordinary parameters.
-/

deriving instance DecidableEq for Except

namespace Serde

/-- Runtime error kinds of the generated code.  `endOfStream`, `invalidValue`,
`unknownField` and `unknownVariant` are the constructors the generator emits
calls to (`::serde::de::Error::end_of_stream()` etc. in `de.rs`).
`missingField` is the error of the missing-field policy and `trailingData` is
the error the decoder's `end()` cursor check reports (spec section 6: `end() ->
Unit | Error(trailing data)`); both live behind interfaces outside `de.rs`. -/
inductive DeError where
  | endOfStream
  | trailingData
  | invalidValue (msg : String)
  | unknownField (name : String)
  | unknownVariant (name : String)
  | missingField (name : String)
deriving DecidableEq, Repr

/-- The generated `__Field` identifier enum: one tag `__field i` per declared
field or variant, plus the `__ignore` tag.  In the emitted enum the `__ignore`
variant is present iff `deny_unknown_fields` is false (`de.rs` 819-824); we
model one carrier type and show separately which resolutions can produce
`ignore`. -/
inductive FieldTag where
  | field (i : Nat)
  | ignore
deriving DecidableEq, Repr

/-- `true` iff the generated `__Field` enum contains the `__ignore` variant
(`de.rs` 819-824: present exactly when `deny_unknown_fields` is false). -/
def field_enum_has_ignore (deny : Bool) : Bool := !deny

/-- `true` iff the generated enum dispatch contains the
`__Field::__ignore => Err(end_of_stream)` arm (`de.rs` 586-590). -/
def enum_has_ignored_arm (deny : Bool) : Bool := !deny

/-! ## UTF-8 encoding and lossy decoding

The generator compares byte keys against byte-string literals holding the
UTF-8 bytes of each wire name (`de.rs` 890-903), and converts an unmatched
byte key to text with `String::from_utf8_lossy` before building the error
(`de.rs` 905-912).  We embed both: standard UTF-8 encoding of a string, and
the lossy decoder (invalid maximal subparts become U+FFFD). -/

/-- UTF-8 encoding of a single scalar value. -/
def utf8EncodeChar (c : Char) : List Nat :=
  let n := c.toNat
  if n < 0x80 then [n]
  else if n < 0x800 then
    [0xC0 + n / 64, 0x80 + n % 64]
  else if n < 0x10000 then
    [0xE0 + n / 4096, 0x80 + n / 64 % 64, 0x80 + n % 64]
  else
    [0xF0 + n / 262144, 0x80 + n / 4096 % 64, 0x80 + n / 64 % 64, 0x80 + n % 64]

/-- UTF-8 bytes of a string (the byte-string literal the generator emits for a
wire name). -/
def utf8Encode (s : String) : List Nat :=
  s.data.foldr (fun c acc => utf8EncodeChar c ++ acc) []

/-- Is `b` a UTF-8 continuation byte (`0x80..0xBF`)? -/
def isCont (b : Nat) : Bool := 0x80 ≤ b && b < 0xC0

/-- Admissible range of the first continuation byte of a 3-byte sequence with
lead `b` (excludes overlong forms and surrogates). -/
def cont1OK3 (b b1 : Nat) : Bool :=
  if b = 0xE0 then 0xA0 ≤ b1 && b1 ≤ 0xBF
  else if b = 0xED then 0x80 ≤ b1 && b1 ≤ 0x9F
  else isCont b1

/-- Admissible range of the first continuation byte of a 4-byte sequence with
lead `b` (excludes overlong forms and values above U+10FFFF). -/
def cont1OK4 (b b1 : Nat) : Bool :=
  if b = 0xF0 then 0x90 ≤ b1 && b1 ≤ 0xBF
  else if b = 0xF4 then 0x80 ≤ b1 && b1 ≤ 0x8F
  else isCont b1

/-- Decode one scalar starting at lead byte `b` with remaining bytes `rest`.
Returns the decoded character (or `none` for a replacement) and how many bytes
of `rest` belong to the consumed maximal subpart. -/
def utf8Step (b : Nat) (rest : List Nat) : Option Char × Nat :=
  if b < 0x80 then (some (Char.ofNat b), 0)
  else if b < 0xC2 then (none, 0)
  else if b < 0xE0 then
    match rest with
    | b1 :: _ =>
      if isCont b1 then (some (Char.ofNat ((b - 0xC0) * 64 + (b1 - 0x80))), 1)
      else (none, 0)
    | [] => (none, 0)
  else if b < 0xF0 then
    match rest with
    | b1 :: b2 :: _ =>
      if cont1OK3 b b1 then
        if isCont b2 then
          (some (Char.ofNat ((b - 0xE0) * 4096 + (b1 - 0x80) * 64 + (b2 - 0x80))), 2)
        else (none, 1)
      else (none, 0)
    | [b1] => if cont1OK3 b b1 then (none, 1) else (none, 0)
    | [] => (none, 0)
  else if b < 0xF5 then
    match rest with
    | b1 :: b2 :: b3 :: _ =>
      if cont1OK4 b b1 then
        if isCont b2 then
          if isCont b3 then
            (some (Char.ofNat
              ((b - 0xF0) * 262144 + (b1 - 0x80) * 4096 + (b2 - 0x80) * 64 + (b3 - 0x80))), 3)
          else (none, 2)
        else (none, 1)
      else (none, 0)
    | [b1, b2] =>
      if cont1OK4 b b1 then (if isCont b2 then (none, 2) else (none, 1)) else (none, 0)
    | [b1] => if cont1OK4 b b1 then (none, 1) else (none, 0)
    | [] => (none, 0)
  else (none, 0)

/-- Fuel-driven lossy decoding loop; each step consumes at least the lead
byte, so fuel equal to the byte count suffices. -/
def lossyGo : Nat → List Nat → List Char
  | _, [] => []
  | 0, _ :: _ => []
  | fuel + 1, b :: rest =>
    let (c?, k) := utf8Step b rest
    (c?.getD (Char.ofNat 0xFFFD)) :: lossyGo fuel (rest.drop k)

/-- `String::from_utf8_lossy`: best-effort UTF-8 decoding, replacing each
invalid maximal subpart with U+FFFD. -/
def from_utf8_lossy (bs : List Nat) : String := ⟨lossyGo bs.length bs⟩

/-! ## Field-identifier resolution (`deserialize_field_visitor`, `de.rs` 807-963)

The generated `__FieldVisitor` resolves a raw key to a `FieldTag` through one
of three entry points: `visit_usize` (ordinal), `visit_str` (text key),
`visit_bytes` (byte key).  Each consists of one match arm per declared name in
declaration order plus a policy-driven fallthrough arm. -/

/-- Message of the out-of-range-ordinal error (`de.rs` 844-848). -/
def index_error_msg (isVariant : Bool) : String :=
  if isVariant then "expected a variant" else "expected a field"

/-- The unknown-key error constructor the fallthrough arm uses
(`de.rs` 844-848): `unknown_variant` for variants, `unknown_field` for
fields. -/
def unknown_err (isVariant : Bool) (name : String) : DeError :=
  if isVariant then .unknownVariant name else .unknownField name

/-- Generated `visit_usize`: arms `0 => __field0, 1 => __field1, ...` then the
fallthrough (`de.rs` 837-863): `Ok(__ignore)` for field resolution with
unknown fields allowed, otherwise `Err(invalid_value(msg))`. -/
def visit_usize (names : List String) (deny isVariant : Bool) (value : Nat) :
    Except DeError FieldTag :=
  if value < names.length then .ok (.field value)
  else if !isVariant && !deny then .ok .ignore
  else .error (.invalidValue (index_error_msg isVariant))

/-- Generated `visit_str`: one arm per wire name in declaration order, first
match wins, then the fallthrough (`de.rs` 870-888): `Ok(__ignore)` or
`Err(unknown_field/unknown_variant(value))`. -/
def visit_str (names : List String) (deny isVariant : Bool) (value : String) :
    Except DeError FieldTag :=
  match names.findIdx? (· == value) with
  | some i => .ok (.field i)
  | none =>
    if !isVariant && !deny then .ok .ignore
    else .error (unknown_err isVariant value)

/-- Generated `visit_bytes`: one arm per wire name's UTF-8 byte literal in
declaration order, then the fallthrough (`de.rs` 890-919): `Ok(__ignore)` or
`Err(unknown_*(String::from_utf8_lossy(value)))`. -/
def visit_bytes (names : List String) (deny isVariant : Bool) (value : List Nat) :
    Except DeError FieldTag :=
  match (names.map utf8Encode).findIdx? (· == value) with
  | some i => .ok (.field i)
  | none =>
    if !isVariant && !deny then .ok .ignore
    else .error (unknown_err isVariant (from_utf8_lossy value))

/-- A raw key as the wire format presents it: an ordinal, a text key, or a
byte-string key. -/
inductive RawKey where
  | ord (i : Nat)
  | text (s : String)
  | bytes (bs : List Nat)
deriving DecidableEq, Repr

/-- The `__Field` `Deserialize` impl (`de.rs` 921-960): the format decodes the
key by calling exactly one of the three visitor entry points. -/
def resolveKey (names : List String) (deny isVariant : Bool) : RawKey → Except DeError FieldTag
  | .ord i => visit_usize names deny isVariant i
  | .text s => visit_str names deny isVariant s
  | .bytes bs => visit_bytes names deny isVariant bs

/-! ## Sequence-form extraction (`deserialize_seq`, `de.rs` 395-427, and
`deserialize_struct_as_seq`, `de.rs` 429-474)

The sequence cursor (spec section 6) is a list of values: `visit` pops the
next value (`none` at exhaustion), `end` reports trailing data when entries
remain. -/

variable {α β : Type}

/-- `SeqVisitor::visit`: next value of the cursor, or `none` at exhaustion. -/
def seq_visit : List α → Option α × List α
  | [] => (none, [])
  | v :: rest => (some v, rest)

/-- `SeqVisitor::end`: succeeds iff the cursor is exhausted, otherwise the
trailing-data error. -/
def seq_end : List α → Except DeError Unit
  | [] => .ok ()
  | _ :: _ => .error .trailingData

/-- The generated read statements (`de.rs` 401-413 and 435-447): `n` times
`let __fieldi = match try!(visitor.visit()) { Some(v) => v, None => return
Err(end_of_stream()) }`.  Returns the values read in order and the remaining
cursor, paired with the number of `visit` calls made. -/
def seq_reads : Nat → List α → Except DeError (List α × List α) × Nat
  | 0, st => (.ok ([], st), 0)
  | n + 1, st =>
    match seq_visit st with
    | (some v, st') =>
      match seq_reads n st' with
      | (.ok (vs, st''), c) => (.ok (v :: vs, st''), c + 1)
      | (.error e, c) => (.error e, c + 1)
    | (none, _) => (.error .endOfStream, 1)

/-- Number of `visit` requests the generated sequence path issues. -/
def seq_visit_count (n : Nat) (st : List α) : Nat := (seq_reads n st).2

/-- Generated `deserialize_seq` body (`de.rs` 420-426): read `n` values, then
`try!(visitor.end())`, then construct the result from the values in order
(the constructor application `T(__field0, ..)`; we return the ordered
argument list). -/
def deserialize_seq (n : Nat) (st : List α) : Except DeError (List α) :=
  match (seq_reads n st).1 with
  | .ok (vs, st') =>
    match seq_end st' with
    | .ok _ => .ok vs
    | .error e => .error e
  | .error e => .error e

/-! ## Schema data for named-field extraction -/

/-- Per-field missing-value policy.  Modelled from the spec: the policy and
the expression it generates live in `attr.rs` (`FieldAttrs::expr_is_missing`),
which is not under `src/`; spec section 3 gives `missing_policy: Default |
DefaultExpr(expr) | Error` and section 4.3 its meaning (supply the default
value, evaluate the custom default expression, or fail with a named
missing-field error). -/
inductive MissingPolicy (α : Type) where
  | default (v : α)
  | defaultExpr (v : α)
  | error
deriving DecidableEq, Repr

/-- A declared named field as the generator sees it: wire name (post rename),
missing policy, and the optional custom decode expression
(`FieldAttrs::deserialize_with`, opaque to the generator, modelled as a
fallible transformer of the read value). -/
structure MapField (α : Type) where
  wireName : String
  missing : MissingPolicy α
  deWith : Option (α → Except DeError α) := none

/-- Decode the value for field `i`: the field's custom decode expression when
present, otherwise the ambient generic decode (`de.rs` 1064-1079). -/
def field_decode (fields : List (MapField α)) (i : Nat) (v : α) : Except DeError α :=
  match fields[i]? with
  | some f =>
    match f.deWith with
    | some dw => dw v
    | none => .ok v
  | none => .ok v

/-- Generated `deserialize_struct_as_seq` body (`de.rs` 467-473): identical
read loop over `fields.length` positions, then `try!(visitor.end())`, then
the struct literal built from the values in declared field order.  The
fields' missing policies are not consulted (the source function never reads
field attributes). -/
def deserialize_struct_as_seq (fields : List (MapField α)) (st : List α) :
    Except DeError (List α) :=
  match (seq_reads fields.length st).1 with
  | .ok (vs, st') =>
    match seq_end st' with
    | .ok _ => .ok vs
    | .error e => .error e
  | .error e => .error e

/-! ## Map-form extraction (`deserialize_map`, `de.rs` 1028-1129)

The map cursor is a list of raw-key/value entries.  `visit_key` decodes the
next key through the field visitor (propagating its errors), the recognized
arm stores the decoded value into the field's accumulator slot, and the
`_ => try!(visitor.visit_value::<IgnoredAny>())` arm (present iff unknown
fields are allowed, `de.rs` 1056-1062) reads and discards the value. -/

/-- The generated `while let Some(key) = try!(visitor.visit_key())` loop
(`de.rs` 1117-1121) over the accumulator slots. -/
def map_key_loop (fields : List (MapField α)) (deny : Bool) :
    List (RawKey × α) → List (Option α) → Except DeError (List (Option α))
  | [], slots => .ok slots
  | (k, v) :: rest, slots =>
    match resolveKey (fields.map (·.wireName)) deny false k with
    | .error e => .error e
    | .ok (.field i) =>
      match field_decode fields i v with
      | .ok v' => map_key_loop fields deny rest (slots.set i (some v'))
      | .error e => .error e
    | .ok .ignore => map_key_loop fields deny rest slots

/-- The per-field extraction statement (`de.rs` 1081-1094): a populated slot
is moved out, an empty one is resolved by the field's missing policy. -/
def resolve_missing (f : MapField α) : Option α → Except DeError α
  | some v => .ok v
  | none =>
    match f.missing with
    | .default v => .ok v
    | .defaultExpr v => .ok v
    | .error => .error (.missingField f.wireName)

/-- The generated extract statements run for each field in declared order; the
first failing one aborts the call. -/
def extract_values : List (MapField α) → List (Option α) → Except DeError (List α)
  | [], _ => .ok []
  | f :: fs, slots =>
    match resolve_missing f (slots.headD none) with
    | .ok v =>
      match extract_values fs slots.tail with
      | .ok vs => .ok (v :: vs)
      | .error e => .error e
    | .error e => .error e

/-- Wire name of the first field whose slot is empty and whose missing policy
is `error`, if any. -/
def first_required_missing : List (MapField α) → List (Option α) → Option String
  | [], _ => none
  | f :: fs, slots =>
    match resolve_missing f (slots.headD none) with
    | .error _ => some f.wireName
    | .ok _ => first_required_missing fs slots.tail

/-- Generated `visit_map` body (`de.rs` 1114-1128): initialize one empty slot
per field, run the key loop until the key stream is exhausted, extract each
field by slot or missing policy, then `try!(visitor.end())` (the loop has
exhausted the key stream, so the map cursor's end check succeeds) and
construct the result in declared order. -/
def deserialize_map (fields : List (MapField α)) (deny : Bool)
    (entries : List (RawKey × α)) : Except DeError (List α) :=
  match map_key_loop fields deny entries (List.replicate fields.length none) with
  | .error e => .error e
  | .ok slots =>
    match extract_values fields slots with
    | .error e => .error e
    | .ok vs => .ok vs

/-! ## Enum dispatch (`deserialize_item_enum`, `de.rs` 545-642) -/

/-- The generated `EnumVisitor::visit` body (`de.rs` 629-635): resolve the
variant tag through the field visitor with variant semantics, then dispatch:
one arm per variant (`body i`), plus the `__Field::__ignore =>
Err(end_of_stream())` arm (`de.rs` 586-590, emitted iff unknown fields are
allowed; when they are denied the tag type has no `__ignore` variant and the
arm is absent). -/
def enum_visit (names : List String) (deny : Bool) (body : Nat → Except DeError β)
    (tag : RawKey) : Except DeError β :=
  match resolveKey names deny true tag with
  | .error e => .error e
  | .ok (.field i) => body i
  | .ok .ignore => .error .endOfStream

/-- The same dispatch with the ignored arm's result replaced; used to state
that the ignored arm is unreachable. -/
def enum_visit_alt (names : List String) (deny : Bool) (body : Nat → Except DeError β)
    (tag : RawKey) : Except DeError β :=
  match resolveKey names deny true tag with
  | .error e => .error e
  | .ok (.field i) => body i
  | .ok .ignore => .error (.invalidValue "unreachable")

/-! ## Shape classification and emitted visitor entry points -/

/-- The shape classes the generator distinguishes (`deserialize_item_struct`,
`de.rs` 122-181, and `deserialize_variant`, `de.rs` 644-692): unit,
single-field tuple (newtype), tuple, named-field struct. -/
inductive Shape where
  | unit
  | newtype
  | tuple (n : Nat)
  | struct
deriving DecidableEq, Repr

/-- The visitor entry points the generated code can implement. -/
inductive EntryPoint where
  | visit_unit
  | visit_newtype
  | visit_seq
  | visit_map
deriving DecidableEq, Repr

/-- Entry points of the visitor emitted for a top-level item
(`deserialize_unit_struct` 265-296: `visit_unit` and `visit_seq`;
`deserialize_newtype_struct` 298-348: `visit_newtype_struct` and `visit_seq`;
`deserialize_tuple_struct` 350-393: `visit_seq`;
`deserialize_struct` 476-543: `visit_seq` and `visit_map`). -/
def struct_entry_points : Shape → List EntryPoint
  | .unit => [.visit_unit, .visit_seq]
  | .newtype => [.visit_newtype, .visit_seq]
  | .tuple _ => [.visit_seq]
  | .struct => [.visit_seq, .visit_map]

/-- Entry points the generated code for an enum variant drives
(`deserialize_variant`, `de.rs` 644-692): a unit variant calls
`visitor.visit_unit()`; a single-field tuple variant calls
`visitor.visit_newtype()` with no nested visitor; a tuple variant emits a
nested visitor with `visit_seq` and calls `visitor.visit_tuple`; a struct
variant emits a nested visitor with `visit_seq` and `visit_map` and calls
`visitor.visit_struct`. -/
def variant_entry_points : Shape → List EntryPoint
  | .unit => [.visit_unit]
  | .newtype => [.visit_newtype]
  | .tuple _ => [.visit_seq]
  | .struct => [.visit_seq, .visit_map]

/-! ## Concrete scenario data (spec section 8) -/

/-- Wire values for the concrete scenarios. -/
inductive Value where
  | int (n : Nat)
  | str (s : String)
deriving DecidableEq, Repr

/-- The scenario struct `{id: u32, name: string}`: wire names unchanged, both
fields required, no custom decoders. -/
def idNameFields : List (MapField Value) :=
  [⟨"id", .error, none⟩, ⟨"name", .error, none⟩]

/-- All values stored into slot `i` by the key loop, in input order: the
decoded value of every entry whose key resolves to `__field i`. -/
def stored_writes (fields : List (MapField α)) (deny : Bool) (i : Nat)
    (entries : List (RawKey × α)) : List α :=
  entries.filterMap fun kv =>
    match resolveKey (fields.map (·.wireName)) deny false kv.1 with
    | .ok (.field j) => if j = i then (field_decode fields j kv.2).toOption else none
    | _ => none

/-! ## Helper lemmas -/

theorem seq_reads_of_le (n : Nat) (st : List α) (h : n ≤ st.length) :
    seq_reads n st = (.ok (st.take n, st.drop n), n) := by
  induction n generalizing st with
  | zero => simp [seq_reads]
  | succ m ih =>
    cases st with
    | nil => simp at h
    | cons v st' =>
      have h' : m ≤ st'.length := by simpa using h
      simp [seq_reads, seq_visit, ih st' h']

theorem seq_reads_of_lt (n : Nat) (st : List α) (h : st.length < n) :
    seq_reads n st = (.error .endOfStream, st.length + 1) := by
  induction st generalizing n with
  | nil =>
    cases n with
    | zero => simp at h
    | succ m => simp [seq_reads, seq_visit]
  | cons v st' ih =>
    cases n with
    | zero => simp at h
    | succ m =>
      have h' : st'.length < m := by simpa using h
      simp [seq_reads, seq_visit, ih m h']

theorem findIdx?_beq_none_of_not_mem [BEq β] [LawfulBEq β] {l : List β} {a : β}
    (h : a ∉ l) : ∀ s, List.findIdx? (· == a) l s = none := by
  induction l with
  | nil => intro s; rfl
  | cons x xs ih =>
    intro s
    rw [List.findIdx?_cons]
    have hx : ¬(x == a) = true := by
      simp only [beq_iff_eq]
      rintro rfl
      exact h (List.mem_cons_self _ _)
    simp only [hx, if_false]
    exact ih (fun hm => h (List.mem_cons_of_mem _ hm)) (s + 1)

theorem findIdx?_beq_of_nodup [BEq β] [LawfulBEq β] :
    ∀ (l : List β), l.Nodup → ∀ (i : Nat) (hi : i < l.length) (s : Nat),
      List.findIdx? (· == l.get ⟨i, hi⟩) l s = some (s + i)
  | [], _, i, hi, _ => by simp at hi
  | x :: xs, hnd, 0, _, s => by
    rw [List.findIdx?_cons]
    simp
  | x :: xs, hnd, i + 1, hi, s => by
    have hi' : i < xs.length := by
      simp only [List.length_cons] at hi
      omega
    have hmem : xs.get ⟨i, hi'⟩ ∈ xs := List.get_mem xs i hi'
    have hx : ¬(x == xs.get ⟨i, hi'⟩) = true := by
      simp only [beq_iff_eq]
      intro hxe
      exact (List.nodup_cons.mp hnd).1 (hxe ▸ hmem)
    rw [List.findIdx?_cons]
    simp only [List.get_cons_succ]
    rw [if_neg hx, (by omega : s + (i + 1) = s + 1 + i)]
    exact findIdx?_beq_of_nodup xs (List.nodup_cons.mp hnd).2 i hi' (s + 1)

theorem findIdx?_some_bounds {p : β → Bool} :
    ∀ (l : List β) (s i : Nat), List.findIdx? p l s = some i → s ≤ i ∧ i < s + l.length
  | [], s, i, h => by simp [List.findIdx?] at h
  | x :: xs, s, i, h => by
    rw [List.findIdx?_cons] at h
    by_cases hx : p x
    · simp only [hx, if_true, Option.some.injEq] at h
      simp only [List.length_cons]
      omega
    · simp only [hx, if_false] at h
      have := findIdx?_some_bounds xs (s + 1) i h
      simp only [List.length_cons]
      omega

theorem resolveKey_field_lt {names : List String} {deny isVariant : Bool} {k : RawKey}
    {j : Nat} (h : resolveKey names deny isVariant k = .ok (.field j)) : j < names.length := by
  cases k with
  | ord i =>
    simp only [resolveKey, visit_usize] at h
    split at h
    · simp only [Except.ok.injEq, FieldTag.field.injEq] at h
      omega
    · split at h <;> simp at h
  | text s =>
    simp only [resolveKey, visit_str] at h
    split at h
    · rename_i i hfind
      simp only [Except.ok.injEq, FieldTag.field.injEq] at h
      have := findIdx?_some_bounds names 0 i hfind
      omega
    · split at h <;> simp at h
  | bytes bs =>
    simp only [resolveKey, visit_bytes] at h
    split at h
    · rename_i i hfind
      simp only [Except.ok.injEq, FieldTag.field.injEq] at h
      have := findIdx?_some_bounds (names.map utf8Encode) 0 i hfind
      simp only [List.length_map] at this
      omega
    · split at h <;> simp at h

theorem getD_set_self {l : List β} {j : Nat} (h : j < l.length) (v d : β) :
    (l.set j v).getD j d = v := by
  simp [List.getD_eq_getElem?_getD, List.getElem?_set, h]

theorem getD_set_ne {l : List β} {i j : Nat} (h : j ≠ i) (v d : β) :
    (l.set j v).getD i d = l.getD i d := by
  simp [List.getD_eq_getElem?_getD, List.getElem?_set, h]

theorem map_key_loop_length {fields : List (MapField α)} {deny : Bool} :
    ∀ (entries : List (RawKey × α)) (slots₀ slots : List (Option α)),
      map_key_loop fields deny entries slots₀ = .ok slots → slots.length = slots₀.length
  | [], slots₀, slots, h => by
    simp only [map_key_loop, Except.ok.injEq] at h
    rw [← h]
  | (k, v) :: rest, slots₀, slots, h => by
    simp only [map_key_loop] at h
    split at h
    · exact absurd h (by simp)
    · rename_i j _
      split at h
      · have := map_key_loop_length rest _ slots h
        simpa using this
      · exact absurd h (by simp)
    · exact map_key_loop_length rest _ slots h

theorem resolve_missing_error_eq {f : MapField α} {s : Option α} {e : DeError}
    (h : resolve_missing f s = .error e) : e = .missingField f.wireName := by
  cases s with
  | some v => simp [resolve_missing] at h
  | none =>
    cases hm : f.missing <;> simp [resolve_missing, hm] at h
    exact h.symm

theorem extract_values_of_required_missing :
    ∀ (fields : List (MapField α)) (slots : List (Option α)) (nm : String),
      first_required_missing fields slots = some nm →
      extract_values fields slots = .error (.missingField nm)
  | [], slots, nm, h => by simp [first_required_missing] at h
  | f :: fs, slots, nm, h => by
    simp only [first_required_missing] at h
    simp only [extract_values]
    split at h
    · rename_i e he
      rw [he]
      simp only [Option.some.injEq] at h
      rw [← h, resolve_missing_error_eq he]
    · rename_i v hv
      rw [hv, extract_values_of_required_missing fs slots.tail nm h]

theorem extract_values_of_no_required_missing :
    ∀ (fields : List (MapField α)) (slots : List (Option α)),
      slots.length = fields.length →
      first_required_missing fields slots = none →
      extract_values fields slots =
        .ok ((fields.zip slots).filterMap fun fs => (resolve_missing fs.1 fs.2).toOption)
  | [], slots, _, _ => by simp [extract_values]
  | f :: fs, [], hlen, _ => by simp at hlen
  | f :: fs, s :: ss, hlen, h => by
    simp only [first_required_missing, List.headD_cons, List.tail_cons] at h
    simp only [extract_values, List.headD_cons, List.tail_cons]
    split at h
    · simp at h
    · rename_i v hv
      rw [hv, extract_values_of_no_required_missing fs ss (by simpa using hlen) h]
      simp [List.zip_cons_cons, List.filterMap_cons, hv, Except.toOption]

theorem resolveKey_variant_ne_ignore (names : List String) (deny : Bool) (k : RawKey) :
    resolveKey names deny true k ≠ .ok .ignore := by
  cases k with
  | ord i =>
    simp only [resolveKey, visit_usize]
    split
    · simp
    · simp
  | text s =>
    simp only [resolveKey, visit_str]
    split
    · simp
    · simp
  | bytes bs =>
    simp only [resolveKey, visit_bytes]
    split
    · simp
    · simp

theorem getLast?_of_ne_nil : ∀ (l : List β), l ≠ [] → ∃ w, l.getLast? = some w
  | [], h => absurd rfl h
  | [x], _ => ⟨x, rfl⟩
  | x :: y :: t, _ => by
    rw [List.getLast?_cons_cons]
    exact getLast?_of_ne_nil (y :: t) (by simp)

/-! ## Claim theorems -/

/-- C1: for the struct `{id: u32, name: string}` with unchanged wire names and
`deny_unknown_fields = false`: the map input `{"name": "a", "extra": 1,
"id": 7}` deserializes to `{id: 7, name: "a"}` (the unrecognized key `"extra"`
and its value are skipped); the sequence input `[7, "a"]` yields the same
value; the sequence `[7]` fails with the end-of-stream error; the sequence
`[7, "a", 9]` fails with the trailing-data error.  Field values are listed in
declared order `id, name`, so `{id: 7, name: "a"}` is `[.int 7, .str "a"]`. -/
theorem idName_scenario :
    deserialize_map idNameFields false
        [(.text "name", .str "a"), (.text "extra", .int 1), (.text "id", .int 7)]
      = .ok [.int 7, .str "a"]
  ∧ deserialize_struct_as_seq idNameFields [Value.int 7, Value.str "a"]
      = .ok [.int 7, .str "a"]
  ∧ deserialize_struct_as_seq idNameFields [Value.int 7] = .error .endOfStream
  ∧ deserialize_struct_as_seq idNameFields [Value.int 7, Value.str "a", Value.int 9]
      = .error .trailingData := by
  refine ⟨?_, ?_, ?_, ?_⟩ <;> decide

/-- C2: the generated sequence-form path for an arity-`n` tuple shape
(including newtype wrappers, `n = 1`) requests the next value from the cursor
exactly `n` times, in declared order; if the cursor reports exhaustion the
whole call fails with the end-of-stream error (after `length + 1` requests);
after `n` successful reads it calls the cursor's `end()`, propagating the
trailing-data error, and only then constructs the result from the `n` values
in order. -/
theorem deserialize_seq_spec (n : Nat) (st : List α) :
    (n ≤ st.length →
        seq_visit_count n st = n
      ∧ (seq_reads n st).1 = .ok (st.take n, st.drop n)
      ∧ deserialize_seq n st =
          if st.length = n then .ok (st.take n) else .error .trailingData)
  ∧ (st.length < n →
        seq_visit_count n st = st.length + 1
      ∧ deserialize_seq n st = .error .endOfStream) := by
  constructor
  · intro h
    have hr := seq_reads_of_le n st h
    refine ⟨?_, ?_, ?_⟩
    · simp [seq_visit_count, hr]
    · simp [hr]
    · simp only [deserialize_seq, hr]
      by_cases he : st.length = n
      · have hd : st.drop n = [] := by
          rw [List.drop_eq_nil_iff]
          omega
        simp [hd, seq_end, he]
      · have hlt : n < st.length := by omega
        cases hd : st.drop n with
        | nil =>
          have := congrArg List.length hd
          simp only [List.length_drop, List.length_nil] at this
          omega
        | cons a t => simp [hd, seq_end, he]
  · intro h
    have hr := seq_reads_of_lt n st h
    exact ⟨by simp [seq_visit_count, hr], by simp [deserialize_seq, hr]⟩

/-- C2 witness: a 2-element cursor against arity 2 (exact), arity 3
(exhaustion) and arity 1 (trailing data). -/
theorem deserialize_seq_spec_witness :
    seq_visit_count 2 [10, 20] = 2
  ∧ deserialize_seq 2 [10, 20] = .ok [10, 20]
  ∧ seq_visit_count 3 [10, 20] = 3
  ∧ deserialize_seq 3 [10, 20] = .error .endOfStream
  ∧ deserialize_seq 1 [10, 20] = .error .trailingData := by
  obtain ⟨h2, _⟩ := deserialize_seq_spec 2 [10, 20]
  obtain ⟨_, h3⟩ := deserialize_seq_spec 3 [10, 20]
  obtain ⟨h1, _⟩ := deserialize_seq_spec 1 [10, 20]
  obtain ⟨hc2, _, hd2⟩ := h2 (by decide)
  obtain ⟨hc3, hd3⟩ := h3 (by decide)
  obtain ⟨_, _, hd1⟩ := h1 (by decide)
  exact ⟨hc2, by simpa using hd2, hc3, hd3, by simpa using hd1⟩

/-- C7: the sequence-form path of a named-field struct (or struct variant)
never substitutes default values: if the cursor ends before all declared
fields are read, the call fails with the end-of-stream error for every field
list, in particular one whose fields carry default or default-expression
missing policies. -/
theorem struct_as_seq_no_defaults (fields : List (MapField α)) (st : List α)
    (h : st.length < fields.length) :
    deserialize_struct_as_seq fields st = .error .endOfStream := by
  have hr := seq_reads_of_lt fields.length st h
  simp [deserialize_struct_as_seq, hr]

/-- C7 witness: a two-field struct whose second field has a default policy
still fails with end-of-stream on the one-element sequence. -/
theorem struct_as_seq_no_defaults_witness :
    ([Value.int 7] : List Value).length
      < [(⟨"id", .error, none⟩ : MapField Value), ⟨"name", .default (.str "d"), none⟩].length
  ∧ deserialize_struct_as_seq
      [(⟨"id", .error, none⟩ : MapField Value), ⟨"name", .default (.str "d"), none⟩]
      [Value.int 7] = .error .endOfStream :=
  ⟨by decide,
   struct_as_seq_no_defaults
     [⟨"id", .error, none⟩, ⟨"name", .default (.str "d"), none⟩]
     [Value.int 7] (by decide)⟩

/-- C9: an out-of-range ordinal always produces the invalid-value error with
message `"expected a field"` (field resolution under
`deny_unknown_fields = true`) or `"expected a variant"` (variant resolution
under either policy); the message is the same for every out-of-range index, so
the ordinal error never carries the offending index as a name, and the
invalid-value error kind is distinct from the unknown-field and
unknown-variant kinds. -/
theorem out_of_range_ordinal (names : List String) (j : Nat) :
    (∀ deny : Bool,
        visit_usize names deny true (names.length + j)
          = .error (.invalidValue "expected a variant"))
  ∧ visit_usize names true false (names.length + j)
      = .error (.invalidValue "expected a field")
  ∧ (∀ s msg : String,
        DeError.invalidValue msg ≠ .unknownField s
      ∧ DeError.invalidValue msg ≠ .unknownVariant s) := by
  have hnlt : ¬ names.length + j < names.length := by omega
  refine ⟨fun deny => ?_, ?_, fun s msg => ⟨by simp, by simp⟩⟩
  · simp [visit_usize, hnlt, index_error_msg]
  · simp [visit_usize, hnlt, index_error_msg]

/-- C3: an unrecognized text or byte key resolves to the `Ignored` tag when
the container policy allows unknown fields; otherwise it resolves to an
unknown-field error (field resolution) or unknown-variant error (variant
resolution) carrying the offending name, a byte key being converted to text by
lossy best-effort UTF-8 before the error is built.  Variant resolution never
yields `Ignored` for any key (ordinal, text, or byte) under any policy. -/
theorem unknown_key_policy (names : List String) :
    (∀ s : String, s ∉ names →
        visit_str names false false s = .ok .ignore
      ∧ visit_str names true false s = .error (.unknownField s)
      ∧ ∀ deny : Bool, visit_str names deny true s = .error (.unknownVariant s))
  ∧ (∀ bs : List Nat, bs ∉ names.map utf8Encode →
        visit_bytes names false false bs = .ok .ignore
      ∧ visit_bytes names true false bs = .error (.unknownField (from_utf8_lossy bs))
      ∧ ∀ deny : Bool,
          visit_bytes names deny true bs = .error (.unknownVariant (from_utf8_lossy bs)))
  ∧ (∀ (deny : Bool) (k : RawKey), resolveKey names deny true k ≠ .ok .ignore) := by
  refine ⟨fun s hs => ?_, fun bs hbs => ?_, resolveKey_variant_ne_ignore names⟩
  · have hf := findIdx?_beq_none_of_not_mem hs 0
    refine ⟨?_, ?_, fun deny => ?_⟩ <;> simp [visit_str, hf, unknown_err]
  · have hf := findIdx?_beq_none_of_not_mem hbs 0
    refine ⟨?_, ?_, fun deny => ?_⟩ <;> simp [visit_bytes, hf, unknown_err]

/-- C3 witness: against the name set `["id"]`, the unknown text key `"x"` and
the invalid byte key `[0xFF]` (lossily decoded to U+FFFD) behave per policy,
and a variant text key never resolves to `Ignored`. -/
theorem unknown_key_policy_witness :
    visit_str ["id"] false false "x" = .ok .ignore
  ∧ visit_str ["id"] true false "x" = .error (.unknownField "x")
  ∧ visit_str ["id"] false true "x" = .error (.unknownVariant "x")
  ∧ visit_bytes ["id"] false false [0xFF] = .ok .ignore
  ∧ visit_bytes ["id"] true false [0xFF] = .error (.unknownField "\uFFFD")
  ∧ resolveKey ["id"] false true (.text "x") ≠ .ok .ignore := by
  obtain ⟨hs, hb, hv⟩ := unknown_key_policy ["id"]
  obtain ⟨hs1, hs2, hs3⟩ := hs "x" (by decide)
  obtain ⟨hb1, hb2, _⟩ := hb [0xFF] (by decide)
  exact ⟨hs1, hs2, hs3 false, hb1, hb2.trans (by decide), hv false (.text "x")⟩

/-- C6: for every declared field or variant at declaration position `i` whose
wire name is `w`, the three generated resolution strategies agree: ordinal
`i`, text key `w`, and byte key `UTF-8(w)` all resolve to the `i`-th tag, for
both field and variant resolution under either policy.  The hypothesis is the
generation-time precondition that wire names are unique (stated on their byte
literals, which also forces the names themselves to be distinct). -/
theorem resolution_agreement (names : List String)
    (hnd : (names.map utf8Encode).Nodup) (i : Nat) (hi : i < names.length)
    (deny isVariant : Bool) :
    visit_usize names deny isVariant i = .ok (.field i)
  ∧ visit_str names deny isVariant (names.get ⟨i, hi⟩) = .ok (.field i)
  ∧ visit_bytes names deny isVariant (utf8Encode (names.get ⟨i, hi⟩)) = .ok (.field i) := by
  refine ⟨by simp [visit_usize, hi], ?_, ?_⟩
  · have hstr := findIdx?_beq_of_nodup names (hnd.of_map utf8Encode) i hi 0
    simp only [Nat.zero_add] at hstr
    unfold visit_str
    rw [hstr]
  · have hmi : i < (names.map utf8Encode).length := by simpa using hi
    have hbytes := findIdx?_beq_of_nodup (names.map utf8Encode) hnd i hmi 0
    have hget : (names.map utf8Encode).get ⟨i, hmi⟩ = utf8Encode (names.get ⟨i, hi⟩) := by
      simp
    rw [hget] at hbytes
    simp only [Nat.zero_add] at hbytes
    unfold visit_bytes
    rw [hbytes]

/-- C6 witness: for the name set `["id", "name"]` and position 1, ordinal `1`,
text key `"name"`, and byte key `UTF-8("name")` all resolve to tag 1. -/
theorem resolution_agreement_witness :
    visit_usize ["id", "name"] false false 1 = .ok (.field 1)
  ∧ visit_str ["id", "name"] false false "name" = .ok (.field 1)
  ∧ visit_bytes ["id", "name"] false false (utf8Encode "name") = .ok (.field 1) :=
  resolution_agreement ["id", "name"] (by decide) 1 (by decide) false false

/-- C4: in the map-form path, after the key stream is exhausted each field
whose accumulator slot is empty is resolved by its missing policy: if some
empty-slot field is required (the first such field has wire name `nm`), the
call fails with the missing-field error naming it; if every empty-slot field
has a default policy, the call succeeds and each field takes its slot value or,
when the slot is empty, its default (`resolve_missing` per field in declared
order). -/
theorem deserialize_map_missing_policy (fields : List (MapField α)) (deny : Bool)
    (entries : List (RawKey × α)) (slots : List (Option α))
    (hloop : map_key_loop fields deny entries (List.replicate fields.length none)
               = .ok slots) :
    (∀ nm, first_required_missing fields slots = some nm →
       deserialize_map fields deny entries = .error (.missingField nm))
  ∧ (first_required_missing fields slots = none →
       deserialize_map fields deny entries =
         .ok ((fields.zip slots).filterMap fun fs => (resolve_missing fs.1 fs.2).toOption)) := by
  have hlen : slots.length = fields.length := by
    have := map_key_loop_length entries (List.replicate fields.length none) slots hloop
    simpa using this
  constructor
  · intro nm hnm
    simp only [deserialize_map, hloop]
    rw [extract_values_of_required_missing fields slots nm hnm]
  · intro hnone
    simp only [deserialize_map, hloop]
    rw [extract_values_of_no_required_missing fields slots hlen hnone]

/-- C4 witness: for `{id required, opt defaulted to 5}`, the empty map fails
with `MissingField "id"`; a map supplying only `id` succeeds with the default
substituted for `opt`. -/
theorem deserialize_map_missing_policy_witness :
    deserialize_map
        [(⟨"id", .error, none⟩ : MapField Value), ⟨"opt", .default (.int 5), none⟩]
        false [] = .error (.missingField "id")
  ∧ deserialize_map
        [(⟨"id", .error, none⟩ : MapField Value), ⟨"opt", .default (.int 5), none⟩]
        false [(.text "id", .int 1)] = .ok [.int 1, .int 5] := by
  constructor
  · have h := deserialize_map_missing_policy (α := Value)
      [⟨"id", .error, none⟩, ⟨"opt", .default (Value.int 5), none⟩] false []
      [none, none] (by decide)
    exact h.1 "id" (by decide)
  · have h := deserialize_map_missing_policy (α := Value)
      [⟨"id", .error, none⟩, ⟨"opt", .default (Value.int 5), none⟩] false
      [(.text "id", Value.int 1)] [some (Value.int 1), none] (by decide)
    exact (h.2 (by decide)).trans (by decide)

/-- C5: in the map-form path, each occurrence of a recognized key has its
value decoded and stored into the field's single accumulator slot, overwriting
the prior value: after the key loop, slot `i` holds the last value stored for
field `i` (`stored_writes` lists them in input order), or its initial content
if no entry wrote to it — no accumulation and no error from duplicates. -/
theorem map_duplicate_key_last_wins (fields : List (MapField α)) (deny : Bool) :
    ∀ (entries : List (RawKey × α)) (slots₀ slots : List (Option α)),
      fields.length ≤ slots₀.length →
      map_key_loop fields deny entries slots₀ = .ok slots →
      ∀ i : Nat,
        slots.getD i none =
          match (stored_writes fields deny i entries).getLast? with
          | some v => some v
          | none => slots₀.getD i none
  | [], slots₀, slots, _, hloop, i => by
    simp only [map_key_loop, Except.ok.injEq] at hloop
    simp [stored_writes, ← hloop]
  | (k, v) :: rest, slots₀, slots, hlen, hloop, i => by
    simp only [map_key_loop] at hloop
    split at hloop
    · exact absurd hloop (by simp)
    · rename_i j hres
      split at hloop
      · rename_i v' hdec
        have hj : j < fields.length := by
          have := resolveKey_field_lt hres
          simpa using this
        have hlen' : fields.length ≤ (slots₀.set j (some v')).length := by
          simpa using hlen
        have ih := map_duplicate_key_last_wins fields deny rest
          (slots₀.set j (some v')) slots hlen' hloop i
        by_cases hji : j = i
        · subst hji
          have hw : stored_writes fields deny j ((k, v) :: rest)
              = v' :: stored_writes fields deny j rest := by
            simp [stored_writes, List.filterMap_cons, hres, hdec, Except.toOption]
          rw [hw]
          cases hrest : stored_writes fields deny j rest with
          | nil =>
            rw [hrest] at ih
            simp only [List.getLast?_singleton]
            rw [ih]
            exact getD_set_self (by omega) _ _
          | cons w ws =>
            rw [hrest] at ih
            rw [List.getLast?_cons_cons]
            obtain ⟨u, hu⟩ := getLast?_of_ne_nil (w :: ws) (by simp)
            rw [hu] at ih ⊢
            exact ih
        · have hw : stored_writes fields deny i ((k, v) :: rest)
              = stored_writes fields deny i rest := by
            simp [stored_writes, List.filterMap_cons, hres, hji]
          rw [hw, ih, getD_set_ne hji]
      · exact absurd hloop (by simp)
    · rename_i hres
      have ih := map_duplicate_key_last_wins fields deny rest slots₀ slots hlen hloop i
      have hw : stored_writes fields deny i ((k, v) :: rest)
          = stored_writes fields deny i rest := by
        simp [stored_writes, List.filterMap_cons, hres]
      rw [hw]
      exact ih

/-- C5 witness: the single required field `"a"` supplied twice — the slot ends
holding the second value with no error. -/
theorem map_duplicate_key_last_wins_witness :
    map_key_loop [(⟨"a", .error, none⟩ : MapField Value)] false
        [(.text "a", .int 1), (.text "a", .int 2)] [none]
      = .ok [some (.int 2)]
  ∧ ([some (Value.int 2)] : List (Option Value)).getD 0 none =
      match (stored_writes [(⟨"a", .error, none⟩ : MapField Value)] false 0
              [(.text "a", .int 1), (.text "a", .int 2)]).getLast? with
      | some v => some v
      | none => ([none] : List (Option Value)).getD 0 none := by
  refine ⟨by decide, ?_⟩
  exact map_duplicate_key_last_wins (α := Value) [⟨"a", .error, none⟩] false
    [(.text "a", Value.int 1), (.text "a", Value.int 2)] [none] [some (Value.int 2)]
    (by decide) (by decide) 0

/-- C8 counterexample: the claim says the generated logic for a
newtype-shaped enum variant, like a top-level newtype, also provides the
degenerate sequence entry point, but `deserialize_variant` emits only the
direct `visitor.visit_newtype()` call with no nested visitor, so the variant's
generated logic has no sequence entry point. -/
theorem variant_newtype_no_seq_counterexample :
    ¬ EntryPoint.visit_seq ∈ variant_entry_points Shape.newtype := by decide

/-- C8 amended: each enum variant is handled by shape with the same
unit/newtype/tuple/struct classification as top-level items, and tuple and
struct variants get nested visitors with the same entry points as their
top-level counterparts; but a newtype variant provides only the
single-nested-value entry point (no degenerate sequence entry point), unlike a
top-level newtype, and a unit variant provides only the unit entry point. -/
theorem variant_entry_points_spec :
    variant_entry_points Shape.unit = [.visit_unit]
  ∧ variant_entry_points Shape.newtype = [.visit_newtype]
  ∧ (∀ n : Nat, variant_entry_points (Shape.tuple n) = [.visit_seq]
      ∧ variant_entry_points (Shape.tuple n) = struct_entry_points (Shape.tuple n))
  ∧ variant_entry_points Shape.struct = [.visit_seq, .visit_map]
  ∧ variant_entry_points Shape.struct = struct_entry_points Shape.struct
  ∧ struct_entry_points Shape.newtype = [.visit_newtype, .visit_seq] := by
  refine ⟨rfl, rfl, fun n => ⟨rfl, rfl⟩, rfl, rfl, rfl⟩

/-- C10: for an enum generated with `deny_unknown_fields = false`, the
variant-identifier type contains the `Ignored` tag and the dispatch contains
the arm mapping it to the end-of-stream error, yet no resolution strategy
(ordinal, text, or byte) ever produces `Ignored` for variants, so that arm is
unreachable: the dispatch agrees, on every input, with a dispatch whose
ignored arm yields a different result. -/
theorem enum_ignored_arm_unreachable :
    field_enum_has_ignore false = true
  ∧ enum_has_ignored_arm false = true
  ∧ (∀ (names : List String) (deny : Bool) (k : RawKey),
       resolveKey names deny true k ≠ .ok .ignore)
  ∧ (∀ (β : Type) (names : List String) (body : Nat → Except DeError β) (k : RawKey),
       enum_visit names false body k = enum_visit_alt names false body k) := by
  refine ⟨rfl, rfl, resolveKey_variant_ne_ignore, fun β names body k => ?_⟩
  simp only [enum_visit, enum_visit_alt]
  cases hres : resolveKey names false true k with
  | error e => rfl
  | ok tag =>
    cases tag with
    | field i => rfl
    | ignore => exact absurd hres (resolveKey_variant_ne_ignore names false k)

end Serde
